import Mathlib

/-!
Shallow embedding of the housing-data ETL pipeline in
`src/week2/week2_assignments/etl.py`, together with theorems settling the
frozen claims about it.

Modelling conventions:
* A pandas `DataFrame` is a column-oriented table: an ordered association
  list of column names to column values (`Table`).  Cell values (`Value`)
  are rationals (pandas numerics), strings, parsed datetimes (kept as the
  raw date string) or `missing` (NaN/NaT).
* Python objects are mutable; in-place mutation (`inplace=True`,
  `df[col] = ...`) is modelled with an explicit heap of tables indexed by
  references, so that frame/aliasing claims are meaningful.
* Python exceptions become `Except PyError`; an operation returns its
  (possibly unchanged) heap alongside, so state at the moment an exception
  propagates is observable.
* The feature store / filesystem is an association list from path strings
  to file contents (`FileStore`).
* External libraries (sklearn, thefuzz) are modelled at the level of their
  documented behaviour where a claim depends on it; the statistical values
  an external fit/imputation would produce are either taken as a parameter
  (the MICE fill) or modelled from the spec (the target-encoder statistic),
  and no claim depends on those numbers.
-/

set_option autoImplicit false

/-- A cell of a pandas DataFrame: a numeric value, a string, a parsed
datetime (carrying the raw date string), or a missing value (NaN/NaT). -/
inductive Value where
  | num (q : ℚ)
  | str (s : String)
  | dt (s : String)
  | missing
deriving DecidableEq

/-- A DataFrame, column oriented: ordered association list from column
name to the list of that column's values (one per row). -/
abbrev Table := List (String × List Value)

/-- The ordered list of column names of a table (`df.columns`). -/
def Table.colNames (t : Table) : List String := t.map (fun p => p.1)

/-- `df[c]`: the values of column `c` (first matching column). -/
def Table.getCol (t : Table) (c : String) : Option (List Value) :=
  (t.find? (fun p => p.1 == c)).map (fun p => p.2)

/-- `df[c] = vs`: overwrite column `c` in place if present (keeping its
position), otherwise append it at the end, as pandas does. -/
def Table.setCol (t : Table) (c : String) (vs : List Value) : Table :=
  if t.any (fun p => p.1 == c) then
    t.map (fun p => if p.1 == c then (c, vs) else p)
  else t ++ [(c, vs)]

/-- Set several columns left to right (`df[names] = frame`). -/
def Table.setCols (t : Table) (ps : List (String × List Value)) : Table :=
  ps.foldl (fun acc p => acc.setCol p.1 p.2) t

/-- Remove the named columns, keeping the order of the rest. -/
def Table.removeCols (t : Table) (names : List String) : Table :=
  t.filter (fun p => !(names.contains p.1))

/-- Python exceptions relevant to the pipeline. -/
inductive PyError where
  | valueError (msg : String)
  | keyError (msg : String)
  | typeError (msg : String)
  | fileNotFound (path : String)
  | notFittedError
  | nameError (name : String)
deriving DecidableEq

/-- References to mutable DataFrame objects. -/
abbrev Ref := Nat

/-- A heap of mutable DataFrame objects: Python object identity made
explicit.  `next` is the next fresh reference; all live references are
below it. -/
structure Heap where
  get : Ref → Table
  next : Ref

/-- Overwrite the object at reference `r` (in-place mutation). -/
def Heap.write (h : Heap) (r : Ref) (t : Table) : Heap :=
  ⟨fun x => if x = r then t else h.get x, h.next⟩

/-- Allocate a fresh object holding table `t`, returning its reference. -/
def Heap.alloc (h : Heap) (t : Table) : Heap × Ref :=
  (⟨fun x => if x = h.next then t else h.get x, h.next + 1⟩, h.next)

/-- The state of a sklearn `TargetEncoder` object: per encoded column a
mapping from category to its learned statistic, per column the fallback
statistic for unseen categories (the fitted target mean), and whether the
encoder has been fitted at all. -/
structure TEncoder where
  colMaps : List (List (Value × ℚ))
  defaults : List ℚ
  fitted : Bool
deriving DecidableEq

/-- Contents of a stored file in the feature store / filesystem. -/
inductive FileData where
  | parquet (t : Table)
  | csv (vs : List Value)
  | pickle (e : TEncoder)
deriving DecidableEq

/-- The filesystem / feature store: paths mapped to file contents. -/
abbrev FileStore := List (String × FileData)

/-- Write (create or overwrite) a file. -/
def FileStore.writeFile (fs : FileStore) (p : String) (d : FileData) : FileStore :=
  if fs.any (fun q => q.1 == p) then
    fs.map (fun q => if q.1 == p then (p, d) else q)
  else fs ++ [(p, d)]

/-- Read a file, `none` when absent. -/
def FileStore.readFile (fs : FileStore) (p : String) : Option FileData :=
  (fs.find? (fun q => q.1 == p)).map (fun q => q.2)

/-! ### Basic lemmas about table columns -/

/-! ### The fuzzy string-matching stack (thefuzz `fuzz.ratio` via
`process.extractOne`), modelled concretely.

`fuzz.ratio` is the classic indel-normalised similarity
`round(100 * 2 * M / (len A + len B))`, where `M` is the number of matched
characters, i.e. the length of a longest common subsequence; `round` is
Python rounding (half to even).  `process.extractOne` preprocesses both
strings (non-alphanumeric characters to spaces, lowercase, strip) and
returns the choice with the highest score, the first on ties. -/

/-- Length of a longest common subsequence of two character lists,
written with an explicit structural fuel so that it evaluates inside the
kernel; every recursive call shrinks the total length by at least one, so
the fuel `as.length + bs.length` used by `lcsLen` never runs out. -/
def lcsLenFuel : Nat → List Char → List Char → Nat
  | 0, _, _ => 0
  | _ + 1, [], _ => 0
  | _ + 1, _ :: _, [] => 0
  | fuel + 1, a :: as, b :: bs =>
    if a = b then lcsLenFuel fuel as bs + 1
    else max (lcsLenFuel fuel (a :: as) bs) (lcsLenFuel fuel as (b :: bs))

/-- Length of a longest common subsequence of two character lists. -/
def lcsLen (as bs : List Char) : Nat := lcsLenFuel (as.length + bs.length) as bs

/-- Python `round` on the fraction `num / den`: round half to even. -/
def pyRound (num den : Nat) : Nat :=
  if 2 * (num % den) < den then num / den
  else if den < 2 * (num % den) then num / den + 1
  else if (num / den) % 2 = 0 then num / den else num / den + 1

/-- thefuzz `fuzz.ratio`: indel similarity on a 0-100 scale with Python
rounding; two empty strings score 100. -/
def fuzzScore (a b : String) : Nat :=
  if a.toList.length + b.toList.length = 0 then 100
  else pyRound (200 * lcsLen a.toList b.toList) (a.toList.length + b.toList.length)

/-- Strip leading and trailing whitespace (Python `str.strip`). -/
def trimSpaces (cs : List Char) : List Char :=
  ((cs.dropWhile (fun c => c.isWhitespace)).reverse.dropWhile
    (fun c => c.isWhitespace)).reverse

/-- thefuzz default processor `full_process`: non-alphanumeric characters
become spaces, everything is lowercased, surrounding whitespace stripped. -/
def fullProcess (s : String) : String :=
  String.mk (trimSpaces (s.toList.map (fun c => if c.isAlphanum then c.toLower else ' ')))

/-- One step of thefuzz `process.extractOne`: keep the best (choice, score)
seen so far, replacing it only on a strictly higher score, so the first of
equally scoring choices wins. -/
def extractStep (q : String) (acc : Option (String × Nat)) (c : String) :
    Option (String × Nat) :=
  match acc with
  | none => some (c, fuzzScore (fullProcess q) (fullProcess c))
  | some (bc, bs) =>
    if bs < fuzzScore (fullProcess q) (fullProcess c) then
      some (c, fuzzScore (fullProcess q) (fullProcess c))
    else some (bc, bs)

/-- thefuzz `process.extractOne(query, choices, scorer=fuzz.ratio)`:
the choice with the highest `fuzz.ratio` score against the query, the
first on ties; `none` on an empty choice list. -/
def extractOne (query : String) (choices : List String) : Option (String × Nat) :=
  choices.foldl (extractStep query) none

/-! ### Embedding of the source functions of `etl.py`

Each Python function that mutates a DataFrame argument in place becomes a
Lean function on the heap; `file_reader` and the Great Expectations
validation gate are external collaborators and stay outside the embedding
(`data_extraction` takes the two loaded input tables as heap references).
-/

/-- The module constant `RANDOM_SEED = 42` (only threaded through to the
external randomised collaborators; no claim depends on it). -/
def RANDOM_SEED : Nat := 42

/-- `pd.to_datetime` on one cell, for the string dates this pipeline
parses; non-string cells are irrelevant to every claim and kept as is
(`NaT` stays missing). -/
def pdToDatetime : Value → Value
  | .str s => .dt s
  | v => v

/-- Decimal digits to a number (the date fields are all digits). -/
def parseNat (s : String) : Nat :=
  s.toList.foldl (fun acc c => acc * 10 + (c.toNat - 48)) 0

/-- `.dt.year` of a parsed `YYYY-MM-DD...` date string. -/
def dateYear (s : String) : ℚ := ((parseNat (s.take 4) : Nat) : ℚ)

def dateMonth (s : String) : Nat := parseNat ((s.drop 5).take 2)

def dateDay (s : String) : Nat := parseNat ((s.drop 8).take 2)

/-- `.dt.quarter`: quarter of the year, 1-4. -/
def dateQuarter (s : String) : ℚ := (((dateMonth s + 2) / 3 : Nat) : ℚ)

/-- `.dt.weekday` (Monday = 0): Sakamoto's day-of-week algorithm. -/
def dateWeekday (s : String) : ℚ :=
  let yr := parseNat (s.take 4)
  let y := if dateMonth s < 3 then yr - 1 else yr
  let offsets := [0, 3, 2, 5, 0, 3, 5, 1, 4, 6, 2, 4]
  let sundayBased :=
    (y + y / 4 - y / 100 + y / 400 + offsets.getD (dateMonth s - 1) 0 + dateDay s) % 7
  (((sundayBased + 6) % 7 : Nat) : ℚ)

def dtYear : Value → Value
  | .dt s => .num (dateYear s)
  | _ => .missing

def dtQuarter : Value → Value
  | .dt s => .num (dateQuarter s)
  | _ => .missing

def dtWeekday : Value → Value
  | .dt s => .num (dateWeekday s)
  | _ => .missing

/-- Number of rows of a table (length of its first column). -/
def Table.nRows (t : Table) : Nat := (t.head?.map (fun p => p.2.length)).getD 0

/-- Do rows `i` of `l` and `j` of `r` agree on every join key? -/
def rowKeyMatches (l r : Table) (keys : List String) (i j : Nat) : Bool :=
  keys.all (fun k =>
    ((Table.getCol l k).getD []).getD i Value.missing
      == ((Table.getCol r k).getD []).getD j Value.missing)

/-- `pd.merge(l, r, how="inner", on=keys)`: every pair of rows agreeing on
all keys, in left-major order; columns are the left columns followed by
the non-key right columns.  Missing key columns raise. -/
def pdMergeInner (l r : Table) (keys : List String) : Except PyError Table :=
  if keys.all (fun k => l.any (fun p => p.1 == k))
      && keys.all (fun k => r.any (fun p => p.1 == k)) then
    let pairs := (List.range l.nRows).flatMap (fun i =>
      (List.range r.nRows).filterMap (fun j =>
        if rowKeyMatches l r keys i j then some (i, j) else none))
    let leftCols := l.map (fun p =>
      (p.1, pairs.map (fun ij => p.2.getD ij.1 Value.missing)))
    let rightCols := (r.filter (fun p => !(keys.contains p.1))).map (fun p =>
      (p.1, pairs.map (fun ij => p.2.getD ij.2 Value.missing)))
    .ok (leftCols ++ rightCols)
  else .error (.keyError "merge key not found")

/-- `dataframe_merger`: in place, gives `prices` a `date` column parsed
from `datesold` and renames its `building_year` column to `yr_built`;
then inner-merges on the five join keys into a freshly allocated frame. -/
def dataframe_merger (h : Heap) (prices house : Ref) : Except PyError Ref × Heap :=
  match Table.getCol (h.get prices) "datesold" with
  | none => (.error (.keyError "datesold"), h)
  | some ds =>
    let h1 := h.write prices ((h.get prices).setCol "date" (ds.map pdToDatetime))
    let h2 := h1.write prices ((h1.get prices).map
      (fun p => if p.1 == "building_year" then ("yr_built", p.2) else p))
    match pdMergeInner (h2.get prices) (h2.get house)
        ["postcode", "area", "date", "yr_built", "bedrooms"] with
    | .error e => (.error e, h2)
    | .ok merged =>
      let (h3, r) := h2.alloc merged
      (.ok r, h3)

/-- `df.drop(columns=names, inplace=True)` semantics on a table: raises
`KeyError` when any of the names is absent, otherwise removes them all. -/
def dropColumnsOrError (t : Table) (names : List String) : Except PyError Table :=
  let missing := names.filter (fun n => !(t.any (fun p => p.1 == n)))
  if missing.isEmpty then .ok (t.removeCols names)
  else .error (.keyError (String.intercalate ", " missing ++ " not found in axis"))

/-- Columns dropped by `drop_futile_columns`. -/
def futileColumns : List String := ["yr_renovated", "prev_owner", "datesold", "sqft_above"]

/-- `drop_futile_columns`: drops the four futile columns in place. -/
def drop_futile_columns (h : Heap) (df : Ref) : Except PyError Unit × Heap :=
  match dropColumnsOrError (h.get df) futileColumns with
  | .ok t => (.ok (), h.write df t)
  | .error e => (.error e, h)

def isNumOrMissing : Value → Bool
  | .num _ => true
  | .missing => true
  | _ => false

/-- `df["distance"] >= 100` on one cell (`NaN >= 100` is false). -/
def geHundred : Value → Bool
  | .num q => decide (100 ≤ q)
  | _ => false

/-- `df["distance"] / 1000` on one cell. -/
def divThousand : Value → Value
  | .num q => .num (q / 1000)
  | v => v

/-- `correct_distance_unit`:
`df.loc[df["distance"] >= 100, "distance"] = df["distance"] / 1000`.
Non-numeric, non-missing cells would make the pandas comparison raise. -/
def correct_distance_unit (h : Heap) (df : Ref) : Except PyError Unit × Heap :=
  match Table.getCol (h.get df) "distance" with
  | none => (.error (.keyError "distance"), h)
  | some vs =>
    if vs.all isNumOrMissing then
      let newVs := vs.map (fun v => if geHundred v then divThousand v else v)
      (.ok (), h.write df ((h.get df).setCol "distance" newVs))
    else (.error (.typeError "comparison of str and int"), h)

/-- `.str.lower().str.strip()` on one cell; pandas string methods yield
`NaN` on non-string cells. -/
def lowerStrip : Value → Value
  | .str s => .str s.toLower.trim
  | _ => .missing

/-- `string_transformer`: lowercases and strips the `condition` column. -/
def string_transformer (h : Heap) (df : Ref) : Except PyError Unit × Heap :=
  match Table.getCol (h.get df) "condition" with
  | none => (.error (.keyError "condition"), h)
  | some vs =>
    (.ok (), h.write df ((h.get df).setCol "condition" (vs.map lowerStrip)))

/-- The loop of `typo_fixer` over the `condition` values, accumulating the
scores list and the corrected conditions list; a non-string value or an
empty vocabulary makes the loop body raise before the frame is touched. -/
def typoLoop (threshold : Nat) (vocab : List String) :
    List Value → Except PyError (List Nat × List Value)
  | [] => .ok ([], [])
  | v :: vs =>
    match v with
    | .str s =>
      match extractOne s vocab with
      | some (best, score) =>
        match typoLoop threshold vocab vs with
        | .ok (scores, conds) =>
          .ok (score :: scores,
            (if threshold ≤ score then Value.str best else Value.str s) :: conds)
        | .error e => .error e
      | none => .error (.typeError "cannot unpack non-iterable NoneType object")
    | _ => .error (.typeError "expected a string in column condition")

/-- `typo_fixer`: replaces each `condition` value by its best vocabulary
match when the score reaches the threshold, and records all scores in a
new `similarity_scores` column. -/
def typo_fixer (h : Heap) (df : Ref) (threshold : Nat)
    (correct_condition_values : List String) : Except PyError Unit × Heap :=
  match Table.getCol (h.get df) "condition" with
  | none => (.error (.keyError "condition"), h)
  | some vs =>
    match typoLoop threshold correct_condition_values vs with
    | .error e => (.error e, h)
    | .ok (scores, conds) =>
      (.ok (), h.write df
        (((h.get df).setCol "condition" conds).setCol "similarity_scores"
          (scores.map (fun n => Value.num (n : ℚ)))))

/-- `data_extraction`, with `file_reader` (external file I/O) replaced by
references to the two already-loaded input tables; the typo threshold is
the literal 80 of the source. -/
def data_extraction (h : Heap) (prices house : Ref)
    (correct_condition_values : List String) : Except PyError Ref × Heap :=
  match dataframe_merger h prices house with
  | (.error e, h1) => (.error e, h1)
  | (.ok df, h1) =>
    match drop_futile_columns h1 df with
    | (.error e, h2) => (.error e, h2)
    | (.ok _, h2) =>
      match correct_distance_unit h2 df with
      | (.error e, h3) => (.error e, h3)
      | (.ok _, h3) =>
        match string_transformer h3 df with
        | (.error e, h4) => (.error e, h4)
        | (.ok _, h4) =>
          match typo_fixer h4 df 80 correct_condition_values with
          | (.error e, h5) => (.error e, h5)
          | (.ok _, h5) => (.ok df, h5)

/-! ### Feature engineering stage -/

/-- `float(v)` coercion used by `astype('float64')`; NaN stays NaN.
The columns coerced in this pipeline are numeric, so string-to-float
parsing is not modelled and non-numeric cells raise. -/
def coerceFloat : Value → Except PyError Value
  | .num q => .ok (.num q)
  | .missing => .ok .missing
  | .str s => .error (.valueError ("could not convert string to float: " ++ s))
  | .dt s => .error (.typeError ("invalid type promotion: " ++ s))

/-- `separate_X_and_y`: `df.copy()` and `df.loc[:, df.columns != target]`
both produce fresh frames, so `X` is a newly allocated object holding all
non-target columns; `y` is the target column coerced to float64. -/
def separate_X_and_y (h : Heap) (df : Ref) (target : String) :
    Except PyError (Heap × Ref × List Value) :=
  let t := h.get df
  match Table.getCol t target with
  | none => .error (.keyError target)
  | some tvs =>
    match tvs.mapM coerceFloat with
    | .error e => .error e
    | .ok ys =>
      let X := t.filter (fun p => !(p.1 == target))
      let (h1, xr) := h.alloc X
      .ok (h1, xr, ys)

/-- Columns excluded from imputation by `impute_missing`. -/
def excludedImputeCols : List String := ["postcode", "area", "date", "condition"]

/-- One imputed column: observed cells pass through the iterative imputer
unchanged, missing cells receive the imputer's prediction `fill ci row`. -/
def completeColumn (fill : Nat → Nat → ℚ) (ci : Nat) (vs : List Value) : List Value :=
  vs.enum.map (fun p =>
    match p.2 with
    | .missing => Value.num (fill ci p.1)
    | v => v)

/-- The `MissingIndicator` column appended by `add_indicator=True`:
1.0 where the cell was missing, 0.0 otherwise. -/
def indicatorColumn (vs : List Value) : List Value :=
  vs.map (fun v =>
    match v with
    | .missing => Value.num 1
    | _ => Value.num 0)

/-- The column assignment performed by `df[feature_names] = imputed_df`:
the imputed columns in their original order, followed by a
`missingindicator_` column for each imputed column that had a missing
value (sklearn `get_feature_names_out` naming). -/
def imputeAssignment (fill : Nat → Nat → ℚ) (t : Table) : List (String × List Value) :=
  let dfToImpute := t.filter (fun p => !(excludedImputeCols.contains p.1))
  (dfToImpute.enum.map (fun p => (p.2.1, completeColumn fill p.1 p.2.2)))
    ++ ((dfToImpute.filter (fun p => p.2.contains Value.missing)).map
        (fun p => ("missingindicator_" ++ p.1, indicatorColumn p.2)))

/-- `impute_missing`: MICE over all columns except the excluded
identifier/categorical/datetime ones, with `add_indicator=True`; the
numeric predictions of the external iterative imputer are the parameter
`fill` (they are deterministic under the fixed `RANDOM_SEED`).  The
completed columns and the indicators are merged back over the original
frame.  Non-numeric data in an included column makes the sklearn fit
raise. -/
def impute_missing (fill : Nat → Nat → ℚ) (h : Heap) (df : Ref) :
    Except PyError Unit × Heap :=
  let t := h.get df
  let dfToImpute := t.filter (fun p => !(excludedImputeCols.contains p.1))
  if dfToImpute.all (fun p => p.2.all isNumOrMissing) then
    (.ok (), h.write df (t.setCols (imputeAssignment fill t)))
  else (.error (.valueError "could not convert data to float"), h)

/-- `datetime_decomposer`: derive `year`, `quarter`, `weekday` from the
datetime column, then drop it.  The `.dt` accessors are modelled per
cell; a non-datetime cell gives missing, a case no claim exercises. -/
def datetime_decomposer (h : Heap) (df : Ref) (dt_column_name : String) :
    Except PyError Unit × Heap :=
  let t := h.get df
  match Table.getCol t dt_column_name with
  | none => (.error (.keyError dt_column_name), h)
  | some vs =>
    let t1 := t.setCol "year" (vs.map dtYear)
    let t2 := t1.setCol "quarter" (vs.map dtQuarter)
    let t3 := t2.setCol "weekday" (vs.map dtWeekday)
    (.ok (), h.write df (t3.filter (fun p => !(p.1 == dt_column_name))))

/-- The fixed condition dictionary of `condition_encoder`. -/
def conditionMapping : List (String × ℚ) :=
  [("poor", 1), ("tolerable", 2), ("satisfactory", 3), ("good", 4), ("excellent", 5)]

/-- `Series.map` with the condition dictionary on one cell: values absent
from the dictionary (including non-strings and NaN) map to NaN, without
raising. -/
def mapCondition (v : Value) : Value :=
  match v with
  | .str s =>
    match conditionMapping.find? (fun p => p.1 == s) with
    | some p => .num p.2
    | none => .missing
  | _ => .missing

/-- `condition_encoder`: ordinal-encode the `condition` column through
the fixed dictionary. -/
def condition_encoder (h : Heap) (df : Ref) : Except PyError Unit × Heap :=
  match Table.getCol (h.get df) "condition" with
  | none => (.error (.keyError "condition"), h)
  | some vs =>
    (.ok (), h.write df ((h.get df).setCol "condition" (vs.map mapCondition)))

def sumQ (ys : List ℚ) : ℚ := ys.foldl (fun a b => a + b) 0

def meanQ (ys : List ℚ) : ℚ := sumQ ys / (ys.length : ℚ)

/-- Target values as rationals (`y` is float64 by construction; any
non-numeric cell is irrelevant to every claim). -/
def valueToQ : Value → ℚ
  | .num q => q
  | _ => 0

/-- Per-category statistic learned for one column. -/
def fitColumn (cats : List Value) (ys : List ℚ) : List (Value × ℚ) :=
  cats.dedup.map (fun c =>
    (c, meanQ ((cats.zip ys).filterMap
      (fun p => if p.1 = c then some p.2 else none))))

/-- Modelled from the spec: sklearn `TargetEncoder.fit` learns, per
column, a smoothed per-category mean-target statistic plus the global
target mean used for unseen categories.  The smoothing strength is
internal sklearn behaviour no claim depends on, so the statistic is the
plain per-category mean.  Fitting replaces the entire learned state of
the encoder object. -/
def TEncoder.fit (_e : TEncoder) (cols : List (List Value)) (ys : List ℚ) : TEncoder :=
  ⟨cols.map (fun cvs => fitColumn cvs ys), cols.map (fun _ => meanQ ys), true⟩

/-- Encode one column through its learned mapping; unseen categories get
the fitted global mean. -/
def transformColumn (m : List (Value × ℚ)) (dflt : ℚ) (vs : List Value) : List Value :=
  vs.map (fun v =>
    match m.find? (fun p => p.1 == v) with
    | some p => Value.num p.2
    | none => Value.num dflt)

/-- sklearn `TargetEncoder.transform` on the already-extracted column
values. -/
def TEncoder.transform (e : TEncoder) (cols : List (List Value)) : List (List Value) :=
  (cols.zip (e.colMaps.zip e.defaults)).map (fun p => transformColumn p.2.1 p.2.2 p.1)

/-- `target_encode`: create a fresh (unfitted) encoder when none is
given, `fit` exactly when a target is given, then `transform` (which
raises `NotFittedError` on an unfitted encoder) and write the encoded
columns back into the frame; the encoder object is returned. -/
def target_encode (h : Heap) (df : Ref) (columns : List String)
    (target : Option (List Value)) (encoder : Option TEncoder) :
    Except PyError TEncoder × Heap :=
  let enc0 := encoder.getD ⟨[], [], false⟩
  match columns.mapM (fun c => Table.getCol (h.get df) c) with
  | none => (.error (.keyError "encoded column not found"), h)
  | some colVals =>
    let enc1 :=
      match target with
      | some ys => enc0.fit colVals (ys.map valueToQ)
      | none => enc0
    if enc1.fitted then
      (.ok enc1, h.write df ((h.get df).setCols (columns.zip (enc1.transform colVals))))
    else (.error .notFittedError, h)

/-- `store_features`: `X.to_parquet(feature_file_path)`. -/
def store_features (fs : FileStore) (X : Table) (feature_file_path : String) : FileStore :=
  fs.writeFile feature_file_path (.parquet X)

/-- `store_targets`: `y.to_csv(target_file_path, index=False)`. -/
def store_targets (fs : FileStore) (y : List Value) (target_file_path : String) : FileStore :=
  fs.writeFile target_file_path (.csv y)

/-- `store_encoder`: pickle the encoder to `encoder_file_path`. -/
def store_encoder (fs : FileStore) (e : TEncoder) (encoder_file_path : String) : FileStore :=
  fs.writeFile encoder_file_path (.pickle e)

/-- Columns dropped by `drop_unimportant_features`. -/
def unimportantFeatures : List String :=
  ["floors", "similarity_scores", "missingindicator_sqft_living15",
   "missingindicator_sqft_lot15", "quarter", "weekday"]

/-- `drop_unimportant_features`: drops the fixed list in place. -/
def drop_unimportant_features (h : Heap) (df : Ref) : Except PyError Unit × Heap :=
  match dropColumnsOrError (h.get df) unimportantFeatures with
  | .ok t => (.ok (), h.write df t)
  | .error e => (.error e, h)

/-- Lines 322-327 of the source: the feature/target split when targets
are included, the fit-without-targets configuration check, and the
inference-mode `df.copy()` otherwise. -/
def make_X_y (h : Heap) (df : Ref) (fit_encoder targets_included : Bool) :
    Except PyError (Heap × Ref × Option (List Value)) :=
  if targets_included then
    match separate_X_and_y h df "price" with
    | .ok (h1, X, ys) => .ok (h1, X, some ys)
    | .error e => .error e
  else
    if fit_encoder then
      .error (.valueError "Target encoder can not be trained without targets.")
    else
      let (h1, X) := h.alloc (h.get df)
      .ok (h1, X, none)

/-- `feature_engineering_pipeline`.  `fill` stands for the numeric
predictions of the external MICE imputer (see `impute_missing`).  The
result carries the outcome together with the heap and the file store at
the moment the function returns or its exception propagates, so absence
of I/O is observable on every error path. -/
def feature_engineering_pipeline (fill : Nat → Nat → ℚ) (h : Heap) (df : Ref)
    (fs : FileStore)
    (feature_store_path feature_file_name encoder_file_name : String)
    (target_file_name : Option String) (fit_encoder targets_included : Bool) :
    Except PyError Unit × Heap × FileStore :=
  match make_X_y h df fit_encoder targets_included with
  | .error e => (.error e, h, fs)
  | .ok (h1, X, y) =>
    match impute_missing fill h1 X with
    | (.error e, h2) => (.error e, h2, fs)
    | (.ok _, h2) =>
      match datetime_decomposer h2 X "date" with
      | (.error e, h3) => (.error e, h3, fs)
      | (.ok _, h3) =>
        match condition_encoder h3 X with
        | (.error e, h4) => (.error e, h4, fs)
        | (.ok _, h4) =>
          match drop_unimportant_features h4 X with
          | (.error e, h5) => (.error e, h5, fs)
          | (.ok _, h5) =>
            let feature_file_path := feature_store_path ++ "/" ++ feature_file_name
            match target_file_name with
            | none =>
              (.error (.typeError
                "argument should be a str or an os.PathLike object, not NoneType"),
                h5, fs)
            | some tfn =>
              let target_file_path := feature_store_path ++ "/" ++ tfn
              let encoder_file_path :=
                feature_store_path ++ "/encoders/" ++ encoder_file_name
              if fit_encoder then
                match y with
                | none => (.error (.nameError "y"), h5, fs)
                | some ys =>
                  match target_encode h5 X ["postcode", "area"] (some ys) none with
                  | (.error e, h6) => (.error e, h6, fs)
                  | (.ok enc, h6) =>
                    let fs1 := store_features fs (h6.get X) feature_file_path
                    let fs2 := store_targets fs1 ys target_file_path
                    let fs3 := store_encoder fs2 enc encoder_file_path
                    (.ok (), h6, fs3)
              else
                match fs.readFile encoder_file_path with
                | none => (.error (.fileNotFound encoder_file_path), h5, fs)
                | some (.pickle enc) =>
                  match target_encode h5 X ["postcode", "area"] none (some enc) with
                  | (.error e, h6) => (.error e, h6, fs)
                  | (.ok _, h6) =>
                    let fs1 := store_features fs (h6.get X) feature_file_path
                    if targets_included then
                      match y with
                      | some ys => (.ok (), h6, store_targets fs1 ys target_file_path)
                      | none => (.error (.nameError "y"), h6, fs1)
                    else (.ok (), h6, fs1)
                | some _ => (.error (.typeError "invalid load key"), h5, fs)


/-- The canonical condition vocabulary, as set in `etl` (source line 381)
and passed to `data_extraction`/`typo_fixer`. -/
def correctConditionValues : List String :=
  ["poor", "tolerable", "satisfactory", "good", "excellent"]

/-- The best score `process.extractOne` reports for `s` against `vocab`
(`vocab` nonempty in every use). -/
def bestScore (vocab : List String) (s : String) : Nat :=
  ((extractOne s vocab).getD ("", 0)).2

/-- The best-matching label `process.extractOne` reports for `s`. -/
def bestLabel (vocab : List String) (s : String) : String :=
  ((extractOne s vocab).getD ("", 0)).1

/-- Per-cell result of the typo-repair loop on the condition column. -/
def typoFixValue (threshold : Nat) (vocab : List String) (v : Value) : Value :=
  match v with
  | .str s =>
    if threshold ≤ bestScore vocab s then .str (bestLabel vocab s) else .str s
  | v => v

/-- Per-cell score recorded by the typo-repair loop. -/
def typoScoreValue (vocab : List String) (v : Value) : Nat :=
  match v with
  | .str s => bestScore vocab s
  | _ => 0

/-! ### Concrete data for evaluating the embedding at specific inputs -/

/-- A small merged housing table (the shape `feature_engineering_pipeline`
receives after cleaning). -/
def sampleDF : Table := [
  ("price", [.num 300000, .num 450000]),
  ("postcode", [.str "00100", .str "00200"]),
  ("area", [.str "center", .str "west"]),
  ("date", [.dt "2020-01-15", .dt "2021-07-20"]),
  ("condition", [.str "good", .str "excellent"]),
  ("floors", [.num 1, .num 2]),
  ("similarity_scores", [.num 100, .num 100]),
  ("sqft_living15", [.missing, .num 1500]),
  ("sqft_lot15", [.num 2000, .missing]),
  ("distance", [.num 2, .num 3])]

def sampleHeap : Heap := ⟨fun _ => sampleDF, 1⟩

/-- A concrete stand-in for the external imputer's numeric predictions. -/
def sampleFill : Nat → Nat → ℚ := fun _ _ => 7

/-- A concrete fitted target encoder for the two encoded columns. -/
def sampleEncoder : TEncoder :=
  ⟨[[(.str "00100", 10), (.str "00200", 20)], [(.str "center", 1), (.str "west", 2)]],
   [15, 2], true⟩

/-- A feature store holding only the stored encoder. -/
def sampleStore : FileStore := [("store/encoders/enc.pkl", .pickle sampleEncoder)]

/-- A raw transaction table as `dataframe_merger` receives it. -/
def samplePrices : Table := [
  ("postcode", [.str "00100"]),
  ("area", [.str "center"]),
  ("datesold", [.str "2020-01-15"]),
  ("price", [.num 300000]),
  ("building_year", [.num 1990]),
  ("bedrooms", [.num 3])]

/-- A raw house-information table. -/
def sampleHouse : Table := [
  ("postcode", [.str "00100"]),
  ("area", [.str "center"]),
  ("date", [.dt "2020-01-15"]),
  ("yr_built", [.num 1990]),
  ("bedrooms", [.num 3]),
  ("condition", [.str " Good "]),
  ("distance", [.num 150]),
  ("sqft_above", [.num 100]),
  ("sqft_living15", [.num 1000]),
  ("sqft_lot15", [.num 900])]

/-- Heap holding the two raw input tables at references 0 and 1. -/
def sampleTwoHeap : Heap := ⟨fun r => if r = 0 then samplePrices else sampleHouse, 2⟩

/-- A table containing every column the two drop steps expect. -/
def sampleDroppable : Table := [
  ("yr_renovated", [.num 0]),
  ("prev_owner", [.str "a"]),
  ("datesold", [.str "2020-01-01"]),
  ("sqft_above", [.num 10]),
  ("floors", [.num 1]),
  ("similarity_scores", [.num 100]),
  ("missingindicator_sqft_living15", [.num 0]),
  ("missingindicator_sqft_lot15", [.num 0]),
  ("quarter", [.num 1]),
  ("weekday", [.num 2]),
  ("price", [.num 5])]

def sampleDroppableHeap : Heap := ⟨fun _ => sampleDroppable, 1⟩

/-! ### Lemmas and theorems -/
@[simp] theorem Heap.get_write_self (h : Heap) (r : Ref) (t : Table) :
    (h.write r t).get r = t := by
  simp [Heap.write]

theorem Heap.get_write_ne (h : Heap) (r x : Ref) (t : Table) (hx : x ≠ r) :
    (h.write r t).get x = h.get x := by
  simp [Heap.write, hx]

@[simp] theorem Heap.next_write (h : Heap) (r : Ref) (t : Table) :
    (h.write r t).next = h.next := by
  simp [Heap.write]

theorem Heap.get_alloc_lt (h : Heap) (t : Table) (x : Ref) (hx : x < h.next) :
    (h.alloc t).1.get x = h.get x := by
  have hne : x ≠ h.next := Nat.ne_of_lt hx
  simp [Heap.alloc, hne]

@[simp] theorem Heap.get_alloc_self (h : Heap) (t : Table) :
    (h.alloc t).1.get (h.alloc t).2 = t := by
  simp [Heap.alloc]

@[simp] theorem Heap.alloc_ref (h : Heap) (t : Table) :
    (h.alloc t).2 = h.next := rfl

@[simp] theorem Heap.alloc_next (h : Heap) (t : Table) :
    (h.alloc t).1.next = h.next + 1 := rfl

theorem Table.find?_map_set_self (c : String) (vs : List Value) (t : Table)
    (h : t.any (fun p => p.1 == c) = true) :
    (t.map (fun p => if p.1 == c then (c, vs) else p)).find? (fun p => p.1 == c)
      = some (c, vs) := by
  induction t with
  | nil => simp at h
  | cons hd tl ih =>
    rw [List.any_cons] at h
    by_cases hc : hd.1 = c
    · simp only [List.map_cons]
      rw [if_pos (by simp [hc])]
      rw [List.find?_cons_of_pos _ (by simp)]
    · have hb : (hd.1 == c) = false := by simp [hc]
      rw [hb, Bool.false_or] at h
      simp only [List.map_cons]
      rw [if_neg (by simp [hc])]
      rw [List.find?_cons_of_neg _ (by simp [hc])]
      exact ih h

theorem Table.find?_map_set_ne (c c' : String) (vs : List Value) (t : Table)
    (hne : c' ≠ c) :
    (t.map (fun p => if p.1 == c then (c, vs) else p)).find? (fun p => p.1 == c')
      = t.find? (fun p => p.1 == c') := by
  induction t with
  | nil => rfl
  | cons hd tl ih =>
    by_cases hc : hd.1 = c
    · simp only [List.map_cons]
      rw [if_pos (by simp [hc])]
      rw [List.find?_cons_of_neg _ (by simp [Ne.symm hne])]
      rw [List.find?_cons_of_neg _ (by simp [hc, Ne.symm hne])]
      exact ih
    · by_cases hc' : hd.1 = c'
      · simp only [List.map_cons]
        rw [if_neg (by simp [hc])]
        rw [List.find?_cons_of_pos _ (by simp [hc']),
          List.find?_cons_of_pos _ (by simp [hc'])]
      · simp only [List.map_cons]
        rw [if_neg (by simp [hc])]
        rw [List.find?_cons_of_neg _ (by simp [hc']),
          List.find?_cons_of_neg _ (by simp [hc'])]
        exact ih

theorem Table.find?_none_of_any_false (c : String) (t : Table)
    (h : t.any (fun p => p.1 == c) = false) :
    t.find? (fun p => p.1 == c) = none := by
  induction t with
  | nil => rfl
  | cons hd tl ih =>
    rw [List.any_cons] at h
    by_cases hc : hd.1 = c
    · rw [(by simp [hc] : (hd.1 == c) = true), Bool.true_or] at h
      cases h
    · have hb : (hd.1 == c) = false := by simp [hc]
      rw [hb, Bool.false_or] at h
      rw [List.find?_cons_of_neg _ (by simp [hc])]
      exact ih h

theorem Table.getCol_setCol_self (t : Table) (c : String) (vs : List Value) :
    (t.setCol c vs).getCol c = some vs := by
  unfold Table.setCol Table.getCol
  cases hany : t.any (fun p => p.1 == c) with
  | true =>
    simp only [hany, if_true]
    rw [Table.find?_map_set_self c vs t hany]
    rfl
  | false =>
    simp only [hany, Bool.false_eq_true, if_false]
    rw [List.find?_append, Table.find?_none_of_any_false c t hany]
    simp

theorem Table.getCol_setCol_ne (t : Table) (c c' : String) (vs : List Value)
    (hne : c' ≠ c) :
    (t.setCol c vs).getCol c' = t.getCol c' := by
  unfold Table.setCol Table.getCol
  cases hany : t.any (fun p => p.1 == c) with
  | true =>
    simp only [hany, if_true]
    rw [Table.find?_map_set_ne c c' vs t hne]
  | false =>
    simp only [hany, Bool.false_eq_true, if_false]
    rw [List.find?_append]
    cases hfind : t.find? (fun p => p.1 == c') with
    | some e => simp
    | none => simp [Ne.symm hne]

theorem Table.getCol_filterOut_ne (t : Table) (tgt c : String) (hne : c ≠ tgt) :
    Table.getCol (t.filter (fun p => !(p.1 == tgt))) c = t.getCol c := by
  unfold Table.getCol
  induction t with
  | nil => rfl
  | cons hd tl ih =>
    by_cases ht : hd.1 = tgt
    · have he : ¬ (hd.1 = c) := by rw [ht]; exact fun x => hne x.symm
      rw [List.filter_cons_of_neg (by simp [ht])]
      rw [List.find?_cons_of_neg _ (by simp [he])]
      exact ih
    · by_cases hc2 : hd.1 = c
      · rw [List.filter_cons_of_pos (by simp [ht])]
        rw [List.find?_cons_of_pos _ (by simp [hc2]),
          List.find?_cons_of_pos _ (by simp [hc2])]
      · rw [List.filter_cons_of_pos (by simp [ht])]
        rw [List.find?_cons_of_neg _ (by simp [hc2]),
          List.find?_cons_of_neg _ (by simp [hc2])]
        exact ih

theorem Table.getCol_filterOut_self (t : Table) (tgt : String) :
    Table.getCol (t.filter (fun p => !(p.1 == tgt))) tgt = none := by
  unfold Table.getCol
  induction t with
  | nil => rfl
  | cons hd tl ih =>
    by_cases ht : hd.1 = tgt
    · rw [List.filter_cons_of_neg (by simp [ht])]
      exact ih
    · rw [List.filter_cons_of_pos (by simp [ht])]
      rw [List.find?_cons_of_neg _ (by simp [ht])]
      exact ih

theorem Table.getCol_removeCols_not_mem (t : Table) (names : List String)
    (c : String) (hc : names.contains c = false) :
    (t.removeCols names).getCol c = t.getCol c := by
  unfold Table.removeCols Table.getCol
  induction t with
  | nil => rfl
  | cons hd tl ih =>
    by_cases hm : names.contains hd.1 = true
    · have hne : ¬ (hd.1 = c) := by
        intro he; rw [he] at hm; rw [hm] at hc; cases hc
      rw [List.filter_cons_of_neg (by simpa using hm)]
      rw [List.find?_cons_of_neg _ (by simp [hne])]
      exact ih
    · have hm' : names.contains hd.1 = false := by
        revert hm; cases names.contains hd.1 <;> simp
      by_cases he : hd.1 = c
      · rw [List.filter_cons_of_pos (by simpa using hm')]
        rw [List.find?_cons_of_pos _ (by simp [he]),
          List.find?_cons_of_pos _ (by simp [he])]
      · rw [List.filter_cons_of_pos (by simpa using hm')]
        rw [List.find?_cons_of_neg _ (by simp [he]),
          List.find?_cons_of_neg _ (by simp [he])]
        exact ih

theorem lcsLenFuel_le_left :
    ∀ (fuel : Nat) (as bs : List Char), lcsLenFuel fuel as bs ≤ as.length := by
  intro fuel
  induction fuel with
  | zero => intro as bs; cases as <;> cases bs <;> simp [lcsLenFuel]
  | succ n ih =>
    intro as bs
    cases as with
    | nil => simp [lcsLenFuel]
    | cons a at' =>
      cases bs with
      | nil => simp [lcsLenFuel]
      | cons b bt =>
        simp only [lcsLenFuel]
        by_cases hab : a = b
        · rw [if_pos hab]
          have hr := ih at' bt
          simp only [List.length_cons]
          omega
        · rw [if_neg hab]
          have h1 := ih (a :: at') bt
          have h2 := ih at' (b :: bt)
          simp only [List.length_cons] at h1 h2 ⊢
          omega

theorem lcsLenFuel_le_right :
    ∀ (fuel : Nat) (as bs : List Char), lcsLenFuel fuel as bs ≤ bs.length := by
  intro fuel
  induction fuel with
  | zero => intro as bs; cases as <;> cases bs <;> simp [lcsLenFuel]
  | succ n ih =>
    intro as bs
    cases as with
    | nil => simp [lcsLenFuel]
    | cons a at' =>
      cases bs with
      | nil => simp [lcsLenFuel]
      | cons b bt =>
        simp only [lcsLenFuel]
        by_cases hab : a = b
        · rw [if_pos hab]
          have hr := ih at' bt
          simp only [List.length_cons]
          omega
        · rw [if_neg hab]
          have h1 := ih (a :: at') bt
          have h2 := ih at' (b :: bt)
          simp only [List.length_cons] at h1 h2 ⊢
          omega

theorem lcsLen_le_left (as bs : List Char) : lcsLen as bs ≤ as.length :=
  lcsLenFuel_le_left (as.length + bs.length) as bs

theorem lcsLen_le_right (as bs : List Char) : lcsLen as bs ≤ bs.length :=
  lcsLenFuel_le_right (as.length + bs.length) as bs

theorem pyRound_le (num den bound : Nat) (hden : 0 < den)
    (hn : num ≤ bound * den) : pyRound num den ≤ bound := by
  have hq : num / den ≤ bound := by
    have h2 : num / den ≤ bound * den / den := Nat.div_le_div_right hn
    rwa [Nat.mul_div_cancel bound hden] at h2
  by_cases hqe : num / den = bound
  · have hr : num % den = 0 := by
      have hdm := Nat.div_add_mod num den
      rw [hqe] at hdm
      have hbd : den * bound = bound * den := Nat.mul_comm den bound
      rw [hbd] at hdm
      omega
    unfold pyRound
    rw [hr]
    simp [hden, hqe]
  · have hlt : num / den < bound := Nat.lt_of_le_of_ne hq hqe
    unfold pyRound
    split
    · exact hq
    · split
      · omega
      · split <;> omega

theorem fuzzScore_le_100 (a b : String) : fuzzScore a b ≤ 100 := by
  unfold fuzzScore
  split
  · exact Nat.le_refl 100
  · rename_i hne
    apply pyRound_le _ _ _ (Nat.pos_of_ne_zero hne)
    have h1 := lcsLen_le_left a.toList b.toList
    have h2 := lcsLen_le_right a.toList b.toList
    omega

theorem extractStep_fold_spec (q : String) (cs : List String) :
    ∀ (bc : String) (bs : Nat),
      bs = fuzzScore (fullProcess q) (fullProcess bc) →
      ∃ b s, cs.foldl (extractStep q) (some (bc, bs)) = some (b, s) ∧
        (b = bc ∨ b ∈ cs) ∧ s = fuzzScore (fullProcess q) (fullProcess b) ∧
        bs ≤ s ∧ ∀ c ∈ cs, fuzzScore (fullProcess q) (fullProcess c) ≤ s := by
  induction cs with
  | nil =>
    intro bc bs hbs
    exact ⟨bc, bs, rfl, Or.inl rfl, hbs, Nat.le_refl bs, by simp⟩
  | cons c cs ih =>
    intro bc bs hbs
    rw [List.foldl_cons]
    by_cases hlt : bs < fuzzScore (fullProcess q) (fullProcess c)
    · have hstep : extractStep q (some (bc, bs)) c
          = some (c, fuzzScore (fullProcess q) (fullProcess c)) := by
        simp [extractStep, hlt]
      rw [hstep]
      obtain ⟨b, s, hfold, hmem, hs, hle, hall⟩ := ih c _ rfl
      refine ⟨b, s, hfold, ?_, hs, ?_, ?_⟩
      · cases hmem with
        | inl hbc => exact Or.inr (hbc ▸ List.mem_cons_self c cs)
        | inr hin => exact Or.inr (List.mem_cons_of_mem c hin)
      · omega
      · intro d hd
        cases List.mem_cons.mp hd with
        | inl hdc => rw [hdc]; exact hle
        | inr hin => exact hall d hin
    · have hstep : extractStep q (some (bc, bs)) c = some (bc, bs) := by
        simp [extractStep, hlt]
      rw [hstep]
      obtain ⟨b, s, hfold, hmem, hs, hle, hall⟩ := ih bc bs hbs
      refine ⟨b, s, hfold, ?_, hs, hle, ?_⟩
      · cases hmem with
        | inl hbc => exact Or.inl hbc
        | inr hin => exact Or.inr (List.mem_cons_of_mem c hin)
      · intro d hd
        cases List.mem_cons.mp hd with
        | inl hdc => rw [hdc]; exact Nat.le_trans (Nat.le_of_not_lt hlt) hle
        | inr hin => exact hall d hin

theorem extractOne_spec (q : String) (c0 : String) (cs : List String) :
    ∃ b s, extractOne q (c0 :: cs) = some (b, s) ∧ b ∈ c0 :: cs ∧
      s = fuzzScore (fullProcess q) (fullProcess b) ∧
      ∀ c ∈ c0 :: cs, fuzzScore (fullProcess q) (fullProcess c) ≤ s := by
  unfold extractOne
  rw [List.foldl_cons]
  have hstep : extractStep q none c0
      = some (c0, fuzzScore (fullProcess q) (fullProcess c0)) := rfl
  rw [hstep]
  obtain ⟨b, s, hfold, hmem, hs, hle, hall⟩ := extractStep_fold_spec q cs c0 _ rfl
  refine ⟨b, s, hfold, ?_, hs, ?_⟩
  · cases hmem with
    | inl hbc => exact hbc ▸ List.mem_cons_self c0 cs
    | inr hin => exact List.mem_cons_of_mem c0 hin
  · intro d hd
    cases List.mem_cons.mp hd with
    | inl hdc => rw [hdc]; exact hle
    | inr hin => exact hall d hin


/-! #### setCols and rename lemmas -/

theorem Table.getCol_setCols_not_mem (t : Table) (ps : List (String × List Value))
    (c : String) (hc : ¬ c ∈ ps.map (fun p => p.1)) :
    (t.setCols ps).getCol c = t.getCol c := by
  induction ps generalizing t with
  | nil => rfl
  | cons p rest ih =>
    rw [List.map_cons, List.mem_cons] at hc
    push_neg at hc
    unfold Table.setCols
    rw [List.foldl_cons]
    have h1 : (Table.setCols (t.setCol p.1 p.2) rest).getCol c
        = (t.setCol p.1 p.2).getCol c := ih (t.setCol p.1 p.2) hc.2
    unfold Table.setCols at h1
    rw [h1]
    exact Table.getCol_setCol_ne t p.1 c p.2 hc.1

theorem Table.getCol_setCols_mem (t : Table) (ps : List (String × List Value))
    (hnodup : (ps.map (fun p => p.1)).Nodup) (c : String) (vs : List Value)
    (hmem : (c, vs) ∈ ps) :
    (t.setCols ps).getCol c = some vs := by
  induction ps generalizing t with
  | nil => cases hmem
  | cons p rest ih =>
    rw [List.map_cons, List.nodup_cons] at hnodup
    unfold Table.setCols
    rw [List.foldl_cons]
    cases List.mem_cons.mp hmem with
    | inl heq =>
      have hp1 : p.1 = c := by rw [← heq]
      have hnotin : ¬ c ∈ rest.map (fun q => q.1) := hp1 ▸ hnodup.1
      have h1 : (Table.setCols (t.setCol p.1 p.2) rest).getCol c
          = (t.setCol p.1 p.2).getCol c :=
        Table.getCol_setCols_not_mem (t.setCol p.1 p.2) rest c hnotin
      unfold Table.setCols at h1
      rw [h1, ← heq]
      exact Table.getCol_setCol_self t c vs
    | inr hin =>
      have h1 := ih (t.setCol p.1 p.2) hnodup.2 hin
      unfold Table.setCols at h1
      exact h1

theorem Table.find?_map_rename_ne (old new c : String) (t : Table)
    (h1 : c ≠ old) (h2 : c ≠ new) :
    (t.map (fun p => if p.1 == old then (new, p.2) else p)).find? (fun p => p.1 == c)
      = t.find? (fun p => p.1 == c) := by
  induction t with
  | nil => rfl
  | cons hd tl ih =>
    by_cases ho : hd.1 = old
    · simp only [List.map_cons]
      rw [if_pos (by simp [ho])]
      rw [List.find?_cons_of_neg _ (by simp [Ne.symm h2])]
      rw [List.find?_cons_of_neg _ (by simp [ho, Ne.symm h1])]
      exact ih
    · by_cases hc : hd.1 = c
      · simp only [List.map_cons]
        rw [if_neg (by simp [ho])]
        rw [List.find?_cons_of_pos _ (by simp [hc]),
          List.find?_cons_of_pos _ (by simp [hc])]
      · simp only [List.map_cons]
        rw [if_neg (by simp [ho])]
        rw [List.find?_cons_of_neg _ (by simp [hc]),
          List.find?_cons_of_neg _ (by simp [hc])]
        exact ih

theorem Table.find?_map_rename_old (old new : String) (t : Table)
    (hne : old ≠ new) :
    (t.map (fun p => if p.1 == old then (new, p.2) else p)).find? (fun p => p.1 == old)
      = none := by
  induction t with
  | nil => rfl
  | cons hd tl ih =>
    by_cases ho : hd.1 = old
    · simp only [List.map_cons]
      rw [if_pos (by simp [ho])]
      rw [List.find?_cons_of_neg _ (by simp [Ne.symm hne])]
      exact ih
    · simp only [List.map_cons]
      rw [if_neg (by simp [ho])]
      rw [List.find?_cons_of_neg _ (by simp [ho])]
      exact ih

theorem Table.find?_map_rename_new (old new : String) (t : Table)
    (e : String × List Value)
    (hnew : t.any (fun p => p.1 == new) = false)
    (hold : t.find? (fun p => p.1 == old) = some e) :
    (t.map (fun p => if p.1 == old then (new, p.2) else p)).find? (fun p => p.1 == new)
      = some (new, e.2) := by
  induction t with
  | nil => cases hold
  | cons hd tl ih =>
    rw [List.any_cons] at hnew
    have hhdnew : ¬ (hd.1 = new) := by
      intro he
      rw [(by simp [he] : (hd.1 == new) = true), Bool.true_or] at hnew
      cases hnew
    have htlnew : tl.any (fun p => p.1 == new) = false := by
      rw [(by simp [hhdnew] : (hd.1 == new) = false), Bool.false_or] at hnew
      exact hnew
    by_cases ho : hd.1 = old
    · rw [List.find?_cons_of_pos _ (by simp [ho])] at hold
      injection hold with he
      simp only [List.map_cons]
      rw [if_pos (by simp [ho])]
      rw [List.find?_cons_of_pos _ (by simp)]
      rw [← he]
    · rw [List.find?_cons_of_neg _ (by simp [ho])] at hold
      simp only [List.map_cons]
      rw [if_neg (by simp [ho])]
      rw [List.find?_cons_of_neg _ (by simp [hhdnew])]
      exact ih htlnew hold

theorem Table.any_map_set_ne (c c' : String) (vs : List Value) (t : Table) :
    (t.map (fun p => if p.1 == c then (c, vs) else p)).any (fun p => p.1 == c')
      = t.any (fun p => p.1 == c') := by
  induction t with
  | nil => rfl
  | cons hd tl ih =>
    by_cases hc : hd.1 = c
    · simp only [List.map_cons, List.any_cons]
      rw [if_pos (by simp [hc])]
      have hh : ((c, vs).1 == c') = (hd.1 == c') := by simp [hc]
      rw [hh, ih]
    · simp only [List.map_cons, List.any_cons]
      rw [if_neg (by simp [hc])]
      rw [ih]

theorem Table.any_setCol_ne (t : Table) (c c' : String) (vs : List Value)
    (hne : c' ≠ c) :
    (t.setCol c vs).any (fun p => p.1 == c') = t.any (fun p => p.1 == c') := by
  unfold Table.setCol
  cases hany : t.any (fun p => p.1 == c) with
  | true =>
    simp only [hany, if_true]
    exact Table.any_map_set_ne c c' vs t
  | false =>
    simp only [hany, Bool.false_eq_true, if_false]
    rw [List.any_append]
    simp [Ne.symm hne]

/-! #### Heap frame lemmas: every mutating stage writes only its own
frame reference -/

theorem impute_missing_get_ne (fill : Nat → Nat → ℚ) (h : Heap) (r x : Ref)
    (hx : x ≠ r) : ((impute_missing fill h r).2).get x = h.get x := by
  simp only [impute_missing]
  split
  · exact Heap.get_write_ne h r x _ hx
  · rfl

theorem datetime_decomposer_get_ne (h : Heap) (r x : Ref) (c : String)
    (hx : x ≠ r) : ((datetime_decomposer h r c).2).get x = h.get x := by
  simp only [datetime_decomposer]
  split
  · rfl
  · exact Heap.get_write_ne h r x _ hx

theorem condition_encoder_get_ne (h : Heap) (r x : Ref)
    (hx : x ≠ r) : ((condition_encoder h r).2).get x = h.get x := by
  simp only [condition_encoder]
  split
  · rfl
  · exact Heap.get_write_ne h r x _ hx

theorem drop_unimportant_features_get_ne (h : Heap) (r x : Ref)
    (hx : x ≠ r) : ((drop_unimportant_features h r).2).get x = h.get x := by
  simp only [drop_unimportant_features]
  split
  · exact Heap.get_write_ne h r x _ hx
  · rfl

theorem drop_futile_columns_get_ne (h : Heap) (r x : Ref)
    (hx : x ≠ r) : ((drop_futile_columns h r).2).get x = h.get x := by
  simp only [drop_futile_columns]
  split
  · exact Heap.get_write_ne h r x _ hx
  · rfl

theorem target_encode_get_ne (h : Heap) (r x : Ref) (cols : List String)
    (tg : Option (List Value)) (enc : Option TEncoder)
    (hx : x ≠ r) : ((target_encode h r cols tg enc).2).get x = h.get x := by
  simp only [target_encode]
  split
  · rfl
  · split
    · exact Heap.get_write_ne h r x _ hx
    · rfl

theorem separate_X_and_y_ok (h : Heap) (df : Ref) (target : String)
    (h1 : Heap) (X : Ref) (ys : List Value)
    (hok : separate_X_and_y h df target = .ok (h1, X, ys)) :
    X = h.next ∧
      h1 = (h.alloc ((h.get df).filter (fun p => !(p.1 == target)))).1 := by
  simp only [separate_X_and_y] at hok
  split at hok
  · cases hok
  · split at hok
    · cases hok
    · injection hok with hok
      injection hok with ha hb
      injection hb with hb hc
      exact ⟨hb.symm, ha.symm⟩

theorem make_X_y_ok (h : Heap) (df : Ref) (fe ti : Bool)
    (h1 : Heap) (X : Ref) (y : Option (List Value))
    (hdf : df < h.next)
    (hok : make_X_y h df fe ti = .ok (h1, X, y)) :
    h1.get df = h.get df ∧ df ≠ X := by
  simp only [make_X_y] at hok
  split at hok
  · -- targets included: the split allocates a fresh X
    split at hok
    · rename_i res h1' X' ys' heq
      injection hok with hok
      injection hok with ha hb
      injection hb with hb hc
      obtain ⟨hX, hH⟩ := separate_X_and_y_ok h df "price" h1' X' ys' heq
      constructor
      · rw [← ha, hH]
        exact Heap.get_alloc_lt h _ df hdf
      · rw [← hb, hX]
        exact Nat.ne_of_lt hdf
    · cases hok
  · split at hok
    · cases hok
    · injection hok with hok
      injection hok with ha hb
      injection hb with hb hc
      constructor
      · rw [← ha]
        exact Heap.get_alloc_lt h _ df hdf
      · rw [← hb]
        exact Nat.ne_of_lt hdf

/-- The pipeline mutates only the freshly allocated feature frame `X`:
the frame passed in is untouched on every path through the pipeline,
successful or not. -/
theorem feature_engineering_pipeline_frame (fill : Nat → Nat → ℚ) (h : Heap)
    (df : Ref) (fs : FileStore)
    (fsp ffn efn : String) (tfn : Option String) (fe ti : Bool)
    (hdf : df < h.next) :
    ((feature_engineering_pipeline fill h df fs fsp ffn efn tfn fe ti).2.1).get df
      = h.get df := by
  unfold feature_engineering_pipeline
  cases hmk : make_X_y h df fe ti with
  | error e => simp
  | ok res =>
    obtain ⟨h1, X, y⟩ := res
    obtain ⟨hg1, hne⟩ := make_X_y_ok h df fe ti h1 X y hdf hmk
    cases himp : impute_missing fill h1 X with
    | mk r1 h2 =>
      have him : h2.get df = h1.get df := by
        have hk := impute_missing_get_ne fill h1 X df hne
        rw [himp] at hk
        exact hk
      cases r1 with
      | error e => simp [himp, him, hg1]
      | ok u1 =>
        cases hdtc : datetime_decomposer h2 X "date" with
        | mk r2 h3 =>
          have hdt : h3.get df = h2.get df := by
            have hk := datetime_decomposer_get_ne h2 X df "date" hne
            rw [hdtc] at hk
            exact hk
          cases r2 with
          | error e => simp [himp, hdtc, hdt, him, hg1]
          | ok u2 =>
            cases hcec : condition_encoder h3 X with
            | mk r3 h4 =>
              have hce : h4.get df = h3.get df := by
                have hk := condition_encoder_get_ne h3 X df hne
                rw [hcec] at hk
                exact hk
              cases r3 with
              | error e => simp [himp, hdtc, hcec, hce, hdt, him, hg1]
              | ok u3 =>
                cases hdrc : drop_unimportant_features h4 X with
                | mk r4 h5 =>
                  have hdr : h5.get df = h4.get df := by
                    have hk := drop_unimportant_features_get_ne h4 X df hne
                    rw [hdrc] at hk
                    exact hk
                  cases r4 with
                  | error e => simp [himp, hdtc, hcec, hdrc, hdr, hce, hdt, him, hg1]
                  | ok u4 =>
                    cases tfn with
                    | none => simp [himp, hdtc, hcec, hdrc, hdr, hce, hdt, him, hg1]
                    | some tf =>
                      cases fe with
                      | true =>
                        cases y with
                        | none =>
                          simp [himp, hdtc, hcec, hdrc, hdr, hce, hdt, him, hg1]
                        | some ys =>
                          cases htec : target_encode h5 X ["postcode", "area"]
                              (some ys) none with
                          | mk r5 h6 =>
                            have hte : h6.get df = h5.get df := by
                              have hk := target_encode_get_ne h5 X df
                                ["postcode", "area"] (some ys) none hne
                              rw [htec] at hk
                              exact hk
                            cases r5 with
                            | error e =>
                              simp [himp, hdtc, hcec, hdrc, htec, hte, hdr, hce,
                                hdt, him, hg1]
                            | ok enc =>
                              simp [himp, hdtc, hcec, hdrc, htec, hte, hdr, hce,
                                hdt, him, hg1]
                      | false =>
                        cases hrf : fs.readFile (fsp ++ "/encoders/" ++ efn) with
                        | none =>
                          simp [himp, hdtc, hcec, hdrc, hrf, hdr, hce, hdt, him, hg1]
                        | some fd =>
                          cases fd with
                          | parquet t =>
                            simp [himp, hdtc, hcec, hdrc, hrf, hdr, hce, hdt, him, hg1]
                          | csv vs =>
                            simp [himp, hdtc, hcec, hdrc, hrf, hdr, hce, hdt, him, hg1]
                          | pickle enc =>
                            cases htec : target_encode h5 X ["postcode", "area"]
                                none (some enc) with
                            | mk r5 h6 =>
                              have hte : h6.get df = h5.get df := by
                                have hk := target_encode_get_ne h5 X df
                                  ["postcode", "area"] none (some enc) hne
                                rw [htec] at hk
                                exact hk
                              cases r5 with
                              | error e =>
                                simp [himp, hdtc, hcec, hdrc, hrf, htec, hte, hdr,
                                  hce, hdt, him, hg1]
                              | ok enc2 =>
                                cases ti with
                                | true =>
                                  cases y with
                                  | none =>
                                    simp [himp, hdtc, hcec, hdrc, hrf, htec, hte,
                                      hdr, hce, hdt, him, hg1]
                                  | some ys =>
                                    simp [himp, hdtc, hcec, hdrc, hrf, htec, hte,
                                      hdr, hce, hdt, him, hg1]
                                | false =>
                                  simp [himp, hdtc, hcec, hdrc, hrf, htec, hte,
                                    hdr, hce, hdt, him, hg1]

/-! #### Claim theorems -/

/-- C2: for every invocation of `feature_engineering_pipeline` with
`fit_encoder = True` and `targets_included = False`, the configuration
`ValueError` is raised before any computation begins and before any file
I/O occurs: the heap and the file store come back exactly as given (no
frame written, no file written, no file read), produced by the flag check
alone. -/
theorem c2_fit_without_targets_config_error (fill : Nat → Nat → ℚ) (h : Heap)
    (df : Ref) (fs : FileStore) (fsp ffn efn : String) (tfn : Option String) :
    feature_engineering_pipeline fill h df fs fsp ffn efn tfn true false
      = (.error (.valueError "Target encoder can not be trained without targets."),
          h, fs) := rfl

/-- C4: `correct_distance_unit` maps a numeric distance `d` to `d / 1000`
exactly when `d ≥ 100` and leaves it unchanged exactly when `d < 100`;
every other column is untouched and the row count of the distance column
is preserved. -/
theorem c4_distance_unit_correction (h : Heap) (df : Ref) (vs : List Value)
    (hcol : Table.getCol (h.get df) "distance" = some vs)
    (hnum : vs.all isNumOrMissing = true) :
    correct_distance_unit h df
        = (.ok (), h.write df ((h.get df).setCol "distance"
            (vs.map (fun v => if geHundred v then divThousand v else v)))) ∧
      (∀ q : ℚ, 100 ≤ q →
        (if geHundred (.num q) then divThousand (.num q) else .num q)
          = .num (q / 1000)) ∧
      (∀ q : ℚ, q < 100 →
        (if geHundred (.num q) then divThousand (.num q) else .num q) = .num q) ∧
      (∀ c, c ≠ "distance" →
        Table.getCol ((h.get df).setCol "distance"
            (vs.map (fun v => if geHundred v then divThousand v else v))) c
          = Table.getCol (h.get df) c) ∧
      (vs.map (fun v => if geHundred v then divThousand v else v)).length
        = vs.length := by
  refine ⟨?_, ?_, ?_, ?_, ?_⟩
  · simp only [correct_distance_unit, hcol, hnum, if_true]
  · intro q hq
    simp [geHundred, divThousand, hq]
  · intro q hq
    have hn : ¬ (100 ≤ q) := not_le.mpr hq
    simp [geHundred, divThousand, hn]
  · intro c hc
    exact Table.getCol_setCol_ne _ "distance" c _ hc
  · exact List.length_map vs _

/-- C4 witness: the sample house table has a single distance 150 ≥ 100,
which is divided by 1000, while a distance of 2 stays unchanged. -/
theorem c4_distance_unit_correction_witness :
    (correct_distance_unit sampleTwoHeap 1).1 = .ok () ∧
    (if geHundred (.num 150) then divThousand (.num 150) else .num 150)
      = .num (150 / 1000) ∧
    (if geHundred (.num 2) then divThousand (.num 2) else .num 2) = .num 2 := by
  have hc := c4_distance_unit_correction sampleTwoHeap 1 [.num 150] (by rfl) (by decide)
  exact ⟨by rw [hc.1], hc.2.1 150 (by norm_num), hc.2.2.1 2 (by norm_num)⟩

/-- C7: the ordinal condition encoding maps exactly poor↦1, tolerable↦2,
satisfactory↦3, good↦4, excellent↦5; every value outside the five-label
vocabulary (including non-strings and missing) maps to a missing value;
and the encoder never raises when the condition column is present. -/
theorem c7_condition_ordinal_encoding (h : Heap) (df : Ref) (vs : List Value)
    (hcol : Table.getCol (h.get df) "condition" = some vs) :
    condition_encoder h df
        = (.ok (), h.write df ((h.get df).setCol "condition" (vs.map mapCondition))) ∧
      mapCondition (.str "poor") = .num 1 ∧
      mapCondition (.str "tolerable") = .num 2 ∧
      mapCondition (.str "satisfactory") = .num 3 ∧
      mapCondition (.str "good") = .num 4 ∧
      mapCondition (.str "excellent") = .num 5 ∧
      (∀ s : String, ¬ s ∈ correctConditionValues → mapCondition (.str s) = .missing) ∧
      (∀ v : Value, (∀ s : String, v ≠ .str s) → mapCondition v = .missing) := by
  refine ⟨?_, rfl, rfl, rfl, rfl, rfl, ?_, ?_⟩
  · simp only [condition_encoder, hcol]
  · intro s hs
    simp only [correctConditionValues, List.mem_cons, List.not_mem_nil, or_false,
      not_or] at hs
    obtain ⟨h1, h2, h3, h4, h5⟩ := hs
    have g1 : ¬ ("poor" = s) := fun he => h1 he.symm
    have g2 : ¬ ("tolerable" = s) := fun he => h2 he.symm
    have g3 : ¬ ("satisfactory" = s) := fun he => h3 he.symm
    have g4 : ¬ ("good" = s) := fun he => h4 he.symm
    have g5 : ¬ ("excellent" = s) := fun he => h5 he.symm
    simp [mapCondition, conditionMapping, g1, g2, g3, g4, g5]
  · intro v hv
    cases v with
    | str s => exact absurd rfl (hv s)
    | num q => rfl
    | dt s => rfl
    | missing => rfl

/-- C7 witness: the sample table's condition column is present and its
canonical labels encode to 4 and 5. -/
theorem c7_condition_ordinal_encoding_witness :
    (condition_encoder sampleHeap 0).1 = .ok () ∧
    ((condition_encoder sampleHeap 0).2).get 0
      = sampleDF.setCol "condition" [.num 4, .num 5] := by
  have hc := c7_condition_ordinal_encoding sampleHeap 0
    [.str "good", .str "excellent"] (by rfl)
  constructor
  · rw [hc.1]
  · rw [hc.1]
    simp only [Heap.get_write_self]
    decide

theorem bestScore_spec (s : String) (c0 : String) (cs : List String) :
    bestLabel (c0 :: cs) s ∈ c0 :: cs ∧
      bestScore (c0 :: cs) s
        = fuzzScore (fullProcess s) (fullProcess (bestLabel (c0 :: cs) s)) ∧
      ∀ c ∈ c0 :: cs,
        fuzzScore (fullProcess s) (fullProcess c) ≤ bestScore (c0 :: cs) s := by
  obtain ⟨b, sc, hext, hmem, hsc, hall⟩ := extractOne_spec s c0 cs
  have hbs : bestScore (c0 :: cs) s = sc := by
    simp only [bestScore, hext, Option.getD_some]
  have hbl : bestLabel (c0 :: cs) s = b := by
    simp only [bestLabel, hext, Option.getD_some]
  rw [hbs, hbl]
  exact ⟨hmem, hsc, hall⟩

theorem typoLoop_spec (threshold : Nat) (c0 : String) (cs : List String) :
    ∀ (vs : List Value), (∀ v ∈ vs, ∃ s, v = Value.str s) →
      typoLoop threshold (c0 :: cs) vs
        = .ok (vs.map (typoScoreValue (c0 :: cs)),
            vs.map (typoFixValue threshold (c0 :: cs))) := by
  intro vs
  induction vs with
  | nil => intro hstr; rfl
  | cons v vt ih =>
    intro hstr
    obtain ⟨s, hv⟩ := hstr v (List.mem_cons_self v vt)
    subst hv
    obtain ⟨b, sc, hext, hmem, hsc, hall⟩ := extractOne_spec s c0 cs
    have hbs : bestScore (c0 :: cs) s = sc := by
      simp only [bestScore, hext, Option.getD_some]
    have hbl : bestLabel (c0 :: cs) s = b := by
      simp only [bestLabel, hext, Option.getD_some]
    have hsv : typoScoreValue (c0 :: cs) (Value.str s) = sc := by
      simp [typoScoreValue, hbs]
    have hfv : typoFixValue threshold (c0 :: cs) (Value.str s)
        = if threshold ≤ sc then Value.str b else Value.str s := by
      simp only [typoFixValue, hbs, hbl]
    simp only [typoLoop]
    rw [hext, ih (fun w hw => hstr w (List.mem_cons_of_mem _ hw))]
    simp only [List.map_cons, hsv, hfv]

/-- C5: `typo_fixer` at the threshold 80 and the five-label vocabulary of
`data_extraction`: every condition value is replaced by the best-matching
canonical label exactly when its best fuzzy score reaches 80 and kept
otherwise; every row's best score (a 0-100 value maximal over the
vocabulary, achieved by the chosen label) is recorded in the new
`similarity_scores` column. -/
theorem c5_typo_fixer_fuzzy_repair (h : Heap) (df : Ref) (vs : List Value)
    (hcol : Table.getCol (h.get df) "condition" = some vs)
    (hstr : ∀ v ∈ vs, ∃ s, v = Value.str s) :
    typo_fixer h df 80 correctConditionValues
        = (.ok (), h.write df
            (((h.get df).setCol "condition"
                (vs.map (typoFixValue 80 correctConditionValues))).setCol
              "similarity_scores"
              ((vs.map (typoScoreValue correctConditionValues)).map
                (fun n => Value.num (n : ℚ))))) ∧
      (∀ s, bestScore correctConditionValues s ≤ 100) ∧
      (∀ s, bestLabel correctConditionValues s ∈ correctConditionValues) ∧
      (∀ s, ∀ c ∈ correctConditionValues,
        fuzzScore (fullProcess s) (fullProcess c) ≤ bestScore correctConditionValues s) ∧
      (∀ s, bestScore correctConditionValues s
        = fuzzScore (fullProcess s) (fullProcess (bestLabel correctConditionValues s))) ∧
      (∀ s, 80 ≤ bestScore correctConditionValues s →
        typoFixValue 80 correctConditionValues (.str s)
          = .str (bestLabel correctConditionValues s)) ∧
      (∀ s, bestScore correctConditionValues s < 80 →
        typoFixValue 80 correctConditionValues (.str s) = .str s) := by
  refine ⟨?_, ?_, ?_, ?_, ?_, ?_, ?_⟩
  · simp only [typo_fixer, hcol]
    rw [show correctConditionValues
        = "poor" :: ["tolerable", "satisfactory", "good", "excellent"] from rfl]
    rw [typoLoop_spec 80 "poor" ["tolerable", "satisfactory", "good", "excellent"] vs hstr]
  · intro s
    obtain ⟨hmem, hsc, hall⟩ := bestScore_spec s "poor"
      ["tolerable", "satisfactory", "good", "excellent"]
    rw [show correctConditionValues
        = "poor" :: ["tolerable", "satisfactory", "good", "excellent"] from rfl]
    rw [hsc]
    exact fuzzScore_le_100 _ _
  · intro s
    exact (bestScore_spec s "poor" ["tolerable", "satisfactory", "good", "excellent"]).1
  · intro s
    exact (bestScore_spec s "poor" ["tolerable", "satisfactory", "good", "excellent"]).2.2
  · intro s
    exact (bestScore_spec s "poor" ["tolerable", "satisfactory", "good", "excellent"]).2.1
  · intro s hge
    simp [typoFixValue, hge]
  · intro s hlt
    simp [typoFixValue, Nat.not_le.mpr hlt]

/-- C5 witness: the sample table's condition values are canonical strings
(scores 100 ≥ 80), and a typo'd "exellent" is corrected while "mediocre"
is kept. -/
theorem c5_typo_fixer_fuzzy_repair_witness :
    (typo_fixer sampleHeap 0 80 correctConditionValues).1 = .ok () ∧
    typoFixValue 80 correctConditionValues (.str "exellent") = .str "excellent" ∧
    typoFixValue 80 correctConditionValues (.str "mediocre") = .str "mediocre" ∧
    bestScore correctConditionValues "exellent" = 94 := by
  have hc := c5_typo_fixer_fuzzy_repair sampleHeap 0 [.str "good", .str "excellent"]
    (by rfl)
    (by
      intro v hv
      simp only [List.mem_cons, List.not_mem_nil, or_false] at hv
      cases hv with
      | inl he => exact ⟨"good", he⟩
      | inr he => exact ⟨"excellent", he⟩)
  refine ⟨by rw [hc.1], ?_, ?_, ?_⟩
  · have h94 : bestScore correctConditionValues "exellent" = 94 := by decide
    exact hc.2.2.2.2.2.1 "exellent" (by rw [h94]; exact Nat.le_of_lt (by decide))
      |>.trans (by decide)
  · exact hc.2.2.2.2.2.2 "mediocre" (by decide)
  · decide

theorem dropColumnsOrError_ok (t : Table) (names : List String)
    (hall : ∀ c ∈ names, t.any (fun p => p.1 == c) = true) :
    dropColumnsOrError t names = .ok (t.removeCols names) := by
  unfold dropColumnsOrError
  have hmiss : names.filter (fun n => !(t.any (fun p => p.1 == n))) = [] := by
    rw [List.filter_eq_nil_iff]
    intro a ha
    simp [hall a ha]
  rw [hmiss]
  rfl

theorem dropColumnsOrError_err (t : Table) (names : List String) (c : String)
    (hc : c ∈ names) (habs : t.any (fun p => p.1 == c) = false) :
    ∃ msg, dropColumnsOrError t names = .error (.keyError msg) := by
  unfold dropColumnsOrError
  have hmem : c ∈ names.filter (fun n => !(t.any (fun p => p.1 == n))) := by
    rw [List.mem_filter]
    exact ⟨hc, by simp [habs]⟩
  have hie : (names.filter (fun n => !(t.any (fun p => p.1 == n)))).isEmpty = false := by
    cases hfil : names.filter (fun n => !(t.any (fun p => p.1 == n))) with
    | nil => rw [hfil] at hmem; cases hmem
    | cons x xs => rfl
  refine ⟨String.intercalate ", "
    (names.filter (fun n => !(t.any (fun p => p.1 == n)))) ++ " not found in axis", ?_⟩
  simp only [hie, Bool.false_eq_true, if_false]

/-- C8: both column-drop steps raise a fatal `KeyError` whenever any
listed column is absent — leaving the frame untouched — and drop exactly
the listed columns when all are present; a missing column is never
silently ignored. -/
theorem c8_drop_steps_schema_errors (h : Heap) (df : Ref) :
    ((∀ c ∈ futileColumns, (h.get df).any (fun p => p.1 == c) = true) →
      drop_futile_columns h df
        = (.ok (), h.write df ((h.get df).removeCols futileColumns))) ∧
    ((∃ c ∈ futileColumns, (h.get df).any (fun p => p.1 == c) = false) →
      ∃ msg, drop_futile_columns h df = (.error (.keyError msg), h)) ∧
    ((∀ c ∈ unimportantFeatures, (h.get df).any (fun p => p.1 == c) = true) →
      drop_unimportant_features h df
        = (.ok (), h.write df ((h.get df).removeCols unimportantFeatures))) ∧
    ((∃ c ∈ unimportantFeatures, (h.get df).any (fun p => p.1 == c) = false) →
      ∃ msg, drop_unimportant_features h df = (.error (.keyError msg), h)) := by
  refine ⟨?_, ?_, ?_, ?_⟩
  · intro hall
    unfold drop_futile_columns
    rw [dropColumnsOrError_ok (h.get df) futileColumns hall]
  · intro hex
    obtain ⟨c, hc, habs⟩ := hex
    obtain ⟨msg, hmsg⟩ := dropColumnsOrError_err (h.get df) futileColumns c hc habs
    refine ⟨msg, ?_⟩
    unfold drop_futile_columns
    rw [hmsg]
  · intro hall
    unfold drop_unimportant_features
    rw [dropColumnsOrError_ok (h.get df) unimportantFeatures hall]
  · intro hex
    obtain ⟨c, hc, habs⟩ := hex
    obtain ⟨msg, hmsg⟩ := dropColumnsOrError_err (h.get df) unimportantFeatures c hc habs
    refine ⟨msg, ?_⟩
    unfold drop_unimportant_features
    rw [hmsg]

/-- C8 witness: a table with every listed column drops cleanly; the
sample merged table lacks `yr_renovated` resp. the missing-indicator
columns, so both steps raise and leave the heap unchanged. -/
theorem c8_drop_steps_schema_errors_witness :
    (drop_futile_columns sampleDroppableHeap 0).1 = .ok () ∧
    (drop_unimportant_features sampleDroppableHeap 0).1 = .ok () ∧
    (∃ msg, drop_futile_columns sampleHeap 0
      = (.error (.keyError msg), sampleHeap)) ∧
    (∃ msg, drop_unimportant_features sampleHeap 0
      = (.error (.keyError msg), sampleHeap)) := by
  have h1 := c8_drop_steps_schema_errors sampleDroppableHeap 0
  have h2 := c8_drop_steps_schema_errors sampleHeap 0
  refine ⟨?_, ?_, ?_, ?_⟩
  · rw [h1.1 (by decide)]
  · rw [h1.2.2.1 (by decide)]
  · exact h2.2.1 ⟨"yr_renovated", by decide, by decide⟩
  · exact h2.2.2.2 ⟨"missingindicator_sqft_living15", by decide, by decide⟩

theorem string_append_length_ne (x c : String) (hlen : c.length < 17)
    (he : "missingindicator_" ++ x = c) : False := by
  have hl := congrArg String.length he
  rw [String.length_append] at hl
  have h17 : ("missingindicator_" : String).length = 17 := rfl
  rw [h17] at hl
  omega

theorem excluded_not_in_imputeAssignment (fill : Nat → Nat → ℚ) (t : Table)
    (c : String) (hc : c ∈ excludedImputeCols) :
    ¬ c ∈ (imputeAssignment fill t).map (fun p => p.1) := by
  intro hmem
  have hlen : c.length < 17 := by
    simp only [excludedImputeCols, List.mem_cons, List.not_mem_nil, or_false] at hc
    rcases hc with hh | hh | hh | hh <;> rw [hh] <;> decide
  have hcont : excludedImputeCols.contains c = true := by simp [hc]
  unfold imputeAssignment at hmem
  rw [List.map_append, List.mem_append] at hmem
  cases hmem with
  | inl hin =>
    rw [List.map_map] at hin
    obtain ⟨q, hq, hqc⟩ := List.mem_map.mp hin
    have hqc2 : q.2.1 = c := hqc
    have hq2 : q.2 ∈ t.filter (fun p => !(excludedImputeCols.contains p.1)) := by
      have henum := List.enum_map_snd
        (t.filter (fun p => !(excludedImputeCols.contains p.1)))
      rw [← henum]
      exact List.mem_map_of_mem Prod.snd hq
    have hpred := (List.mem_filter.mp hq2).2
    rw [hqc2] at hpred
    simp at hpred
    exact hpred hc
  | inr hin =>
    rw [List.map_map] at hin
    obtain ⟨q, hq, hqc⟩ := List.mem_map.mp hin
    exact string_append_length_ne q.1 c hlen hqc

/-- C6: imputation operates over exactly the feature columns outside the
excluded list (`postcode`, `area`, `date`, `condition`): the excluded
columns come back untouched, each non-excluded column is overwritten by
its completed values, a binary missingness-indicator column is added for
each imputed column that had a missing value, and indicator cells are
exactly 0 or 1. -/
theorem c6_impute_missing_selection (fill : Nat → Nat → ℚ) (h : Heap) (df : Ref)
    (hnum : ((h.get df).filter (fun p => !(excludedImputeCols.contains p.1))).all
        (fun p => p.2.all isNumOrMissing) = true)
    (hnodup : ((imputeAssignment fill (h.get df)).map (fun p => p.1)).Nodup) :
    impute_missing fill h df
        = (.ok (), h.write df
            ((h.get df).setCols (imputeAssignment fill (h.get df)))) ∧
      (∀ c ∈ excludedImputeCols,
        Table.getCol ((h.get df).setCols (imputeAssignment fill (h.get df))) c
          = Table.getCol (h.get df) c) ∧
      (∀ iv ∈ ((h.get df).filter (fun p => !(excludedImputeCols.contains p.1))).enum,
        Table.getCol ((h.get df).setCols (imputeAssignment fill (h.get df))) iv.2.1
          = some (completeColumn fill iv.1 iv.2.2)) ∧
      (∀ p ∈ (h.get df).filter (fun p => !(excludedImputeCols.contains p.1)),
        p.2.contains Value.missing = true →
          Table.getCol ((h.get df).setCols (imputeAssignment fill (h.get df)))
            ("missingindicator_" ++ p.1) = some (indicatorColumn p.2)) ∧
      (∀ vs : List Value, ∀ v ∈ indicatorColumn vs,
        v = Value.num 1 ∨ v = Value.num 0) := by
  refine ⟨?_, ?_, ?_, ?_, ?_⟩
  · simp only [impute_missing, hnum, if_true]
  · intro c hc
    exact Table.getCol_setCols_not_mem _ _ c
      (excluded_not_in_imputeAssignment fill (h.get df) c hc)
  · intro iv hiv
    apply Table.getCol_setCols_mem _ _ hnodup
    unfold imputeAssignment
    apply List.mem_append_left
    exact List.mem_map.mpr ⟨iv, hiv, rfl⟩
  · intro p hp hmiss
    apply Table.getCol_setCols_mem _ _ hnodup
    unfold imputeAssignment
    apply List.mem_append_right
    exact List.mem_map.mpr ⟨p, List.mem_filter.mpr ⟨hp, hmiss⟩, rfl⟩
  · intro vs v hv
    unfold indicatorColumn at hv
    obtain ⟨w, hw, hwv⟩ := List.mem_map.mp hv
    cases w with
    | missing => exact Or.inl hwv.symm
    | num q => exact Or.inr hwv.symm
    | str s => exact Or.inr hwv.symm
    | dt s => exact Or.inr hwv.symm

/-- C6 witness: on the sample table the excluded `condition` column is
untouched and `sqft_living15`, which has a missing cell, receives the
binary indicator column. -/
theorem c6_impute_missing_selection_witness :
    (impute_missing sampleFill sampleHeap 0).1 = .ok () ∧
    Table.getCol (sampleDF.setCols (imputeAssignment sampleFill sampleDF)) "condition"
      = Table.getCol sampleDF "condition" ∧
    Table.getCol (sampleDF.setCols (imputeAssignment sampleFill sampleDF))
        "missingindicator_sqft_living15"
      = some [Value.num 1, Value.num 0] := by
  have hc := c6_impute_missing_selection sampleFill sampleHeap 0 (by decide) (by decide)
  refine ⟨by rw [hc.1], ?_, ?_⟩
  · exact hc.2.1 "condition" (by decide)
  · exact hc.2.2.2.1 ("sqft_living15", [Value.missing, Value.num 1500])
      (by decide) (by decide)

/-- C3: in apply mode (`fit_encoder = False`) a missing stored encoder
file raises a fatal `FileNotFoundError` and the feature store comes back
unchanged, so a new encoder is never fitted or saved; and when a fitted
stored encoder is supplied, `target_encode` without a target returns that
encoder object unchanged and only applies its transform to the `postcode`
and `area` columns — `fit` is never invoked in apply mode. -/
theorem c3_apply_mode_encoder_contract :
    (∀ (fill : Nat → Nat → ℚ) (h : Heap) (df : Ref) (fs : FileStore)
        (fsp ffn efn tf : String) (ti : Bool)
        (h1 h2 h3 h4 h5 : Heap) (X : Ref) (y : Option (List Value)),
      make_X_y h df false ti = .ok (h1, X, y) →
      impute_missing fill h1 X = (.ok (), h2) →
      datetime_decomposer h2 X "date" = (.ok (), h3) →
      condition_encoder h3 X = (.ok (), h4) →
      drop_unimportant_features h4 X = (.ok (), h5) →
      fs.readFile (fsp ++ "/encoders/" ++ efn) = none →
      feature_engineering_pipeline fill h df fs fsp ffn efn (some tf) false ti
        = (.error (.fileNotFound (fsp ++ "/encoders/" ++ efn)), h5, fs)) ∧
    (∀ (h : Heap) (df : Ref) (e : TEncoder) (colVals : List (List Value)),
      e.fitted = true →
      (["postcode", "area"].mapM (fun c => Table.getCol (h.get df) c))
        = some colVals →
      target_encode h df ["postcode", "area"] none (some e)
        = (.ok e, h.write df
            ((h.get df).setCols (["postcode", "area"].zip (e.transform colVals))))) := by
  constructor
  · intro fill h df fs fsp ffn efn tf ti h1 h2 h3 h4 h5 X y hmk him hdt hce hdr hrf
    unfold feature_engineering_pipeline
    simp only [hmk, him, hdt, hce, hdr, hrf]
    rfl
  · intro h df e colVals hf hmap
    unfold target_encode
    simp only [hmap, Option.getD_some, hf, if_true]

/-- C3 witness: with an empty feature store the apply-mode pipeline on the
sample table stops with `FileNotFoundError` at the encoder path and writes
nothing; applying the sample fitted encoder returns it unchanged. -/
theorem c3_apply_mode_encoder_contract_witness :
    (feature_engineering_pipeline sampleFill sampleHeap 0 [] "store" "X.parquet"
        "enc.pkl" (some "y.csv") false false).1
      = .error (.fileNotFound "store/encoders/enc.pkl") ∧
    (feature_engineering_pipeline sampleFill sampleHeap 0 [] "store" "X.parquet"
        "enc.pkl" (some "y.csv") false false).2.2 = [] ∧
    (target_encode sampleHeap 0 ["postcode", "area"] none (some sampleEncoder)).1
      = .ok sampleEncoder := by
  have hA := c3_apply_mode_encoder_contract.1 sampleFill sampleHeap 0 []
    "store" "X.parquet" "enc.pkl" "y.csv" false _ _ _ _ _ _ _ rfl rfl rfl rfl rfl rfl
  have hB := c3_apply_mode_encoder_contract.2 sampleHeap 0 sampleEncoder
    [[.str "00100", .str "00200"], [.str "center", .str "west"]] rfl rfl
  refine ⟨?_, ?_, ?_⟩
  · rw [hA]
    rfl
  · rw [hA]
  · rw [hB]

/-- C9: `separate_X_and_y` works on a defensive copy: it returns `y` as
the target column coerced to float64 and `X` as all other columns, held
in a freshly allocated frame; the original merged frame is unchanged by
the split and remains unchanged through every subsequent
feature-engineering mutation of `X` performed by the pipeline. -/
theorem c9_defensive_copy_frame (h : Heap) (df : Ref) (target : String)
    (tvs ys : List Value)
    (hdf : df < h.next)
    (hcol : Table.getCol (h.get df) target = some tvs)
    (hco : tvs.mapM coerceFloat = .ok ys) :
    (separate_X_and_y h df target
        = .ok ((h.alloc ((h.get df).filter (fun p => !(p.1 == target)))).1,
            h.next, ys)) ∧
    ((h.alloc ((h.get df).filter (fun p => !(p.1 == target)))).1.get h.next
        = (h.get df).filter (fun p => !(p.1 == target))) ∧
    Table.getCol ((h.get df).filter (fun p => !(p.1 == target))) target = none ∧
    (∀ c, c ≠ target →
      Table.getCol ((h.get df).filter (fun p => !(p.1 == target))) c
        = Table.getCol (h.get df) c) ∧
    ((h.alloc ((h.get df).filter (fun p => !(p.1 == target)))).1.get df
      = h.get df) ∧
    (∀ (fill : Nat → Nat → ℚ) (fs : FileStore) (fsp ffn efn : String)
        (tfn : Option String) (fe ti : Bool),
      ((feature_engineering_pipeline fill h df fs fsp ffn efn tfn fe ti).2.1).get df
        = h.get df) := by
  refine ⟨?_, ?_, ?_, ?_, ?_, ?_⟩
  · simp only [separate_X_and_y, hcol, hco]
    rfl
  · exact Heap.get_alloc_self h _
  · exact Table.getCol_filterOut_self (h.get df) target
  · intro c hc
    exact Table.getCol_filterOut_ne (h.get df) target c hc
  · exact Heap.get_alloc_lt h _ df hdf
  · intro fill fs fsp ffn efn tfn fe ti
    exact feature_engineering_pipeline_frame fill h df fs fsp ffn efn tfn fe ti hdf

/-- C9 witness: splitting the sample table off `price` returns the
original price values as `y` and leaves the original frame intact across
a full pipeline run. -/
theorem c9_defensive_copy_frame_witness :
    separate_X_and_y sampleHeap 0 "price"
      = .ok ((sampleHeap.alloc (sampleDF.filter (fun p => !(p.1 == "price")))).1,
          1, [Value.num 300000, Value.num 450000]) ∧
    ((feature_engineering_pipeline sampleFill sampleHeap 0 sampleStore "store"
        "X.parquet" "enc.pkl" (some "y.csv") false true).2.1).get 0 = sampleDF := by
  have hc := c9_defensive_copy_frame sampleHeap 0 "price"
    [Value.num 300000, Value.num 450000] [Value.num 300000, Value.num 450000]
    (by decide) rfl rfl
  exact ⟨hc.1, hc.2.2.2.2.2 sampleFill sampleStore "store" "X.parquet" "enc.pkl"
    (some "y.csv") false true⟩

/-- C10: `dataframe_merger` mutates its `prices` argument in place: after
any call (whether or not the merge itself succeeds), the caller's
transaction table has gained a new `date` column parsed from `datesold`
and had its `building_year` column renamed to `yr_built`, so the
transaction input table does not remain unchanged. -/
theorem c10_dataframe_merger_mutates_prices (h : Heap) (prices house : Ref)
    (ds bys : List Value)
    (hlt : prices < h.next)
    (hds : Table.getCol (h.get prices) "datesold" = some ds)
    (hby : Table.getCol (h.get prices) "building_year" = some bys)
    (hnodate : (h.get prices).any (fun p => p.1 == "date") = false)
    (hnoyb : (h.get prices).any (fun p => p.1 == "yr_built") = false) :
    ((dataframe_merger h prices house).2).get prices
        = ((h.get prices).setCol "date" (ds.map pdToDatetime)).map
            (fun p => if p.1 == "building_year" then ("yr_built", p.2) else p) ∧
    Table.getCol (((h.get prices).setCol "date" (ds.map pdToDatetime)).map
        (fun p => if p.1 == "building_year" then ("yr_built", p.2) else p)) "date"
      = some (ds.map pdToDatetime) ∧
    Table.getCol (((h.get prices).setCol "date" (ds.map pdToDatetime)).map
        (fun p => if p.1 == "building_year" then ("yr_built", p.2) else p))
        "building_year" = none ∧
    Table.getCol (((h.get prices).setCol "date" (ds.map pdToDatetime)).map
        (fun p => if p.1 == "building_year" then ("yr_built", p.2) else p))
        "yr_built" = some bys ∧
    ((h.get prices).setCol "date" (ds.map pdToDatetime)).map
        (fun p => if p.1 == "building_year" then ("yr_built", p.2) else p)
      ≠ h.get prices := by
  have hdate : Table.getCol (((h.get prices).setCol "date" (ds.map pdToDatetime)).map
      (fun p => if p.1 == "building_year" then ("yr_built", p.2) else p)) "date"
      = some (ds.map pdToDatetime) := by
    unfold Table.getCol
    rw [Table.find?_map_rename_ne "building_year" "yr_built" "date" _
      (by decide) (by decide)]
    have hself := Table.getCol_setCol_self (h.get prices) "date" (ds.map pdToDatetime)
    unfold Table.getCol at hself
    exact hself
  refine ⟨?_, hdate, ?_, ?_, ?_⟩
  · unfold dataframe_merger
    simp only [hds]
    split
    · simp only [Heap.get_write_self]
    · rw [Heap.get_alloc_lt _ _ _ (by simpa using hlt)]
      simp only [Heap.get_write_self]
  · unfold Table.getCol
    rw [Table.find?_map_rename_old "building_year" "yr_built" _ (by decide)]
    rfl
  · have hbyd : Table.getCol ((h.get prices).setCol "date" (ds.map pdToDatetime))
        "building_year" = some bys := by
      rw [Table.getCol_setCol_ne _ "date" "building_year" _ (by decide)]
      exact hby
    unfold Table.getCol at hbyd ⊢
    cases hfind : ((h.get prices).setCol "date" (ds.map pdToDatetime)).find?
        (fun p => p.1 == "building_year") with
    | none => rw [hfind] at hbyd; cases hbyd
    | some e =>
      rw [hfind] at hbyd
      have he2 : e.2 = bys := by
        injection hbyd
      have hnew : ((h.get prices).setCol "date" (ds.map pdToDatetime)).any
          (fun p => p.1 == "yr_built") = false := by
        rw [Table.any_setCol_ne _ "date" "yr_built" _ (by decide)]
        exact hnoyb
      rw [Table.find?_map_rename_new "building_year" "yr_built" _ e hnew hfind]
      rw [he2]
      rfl
  · intro heq
    have hnone : Table.getCol (h.get prices) "date" = none := by
      unfold Table.getCol
      rw [Table.find?_none_of_any_false "date" _ hnodate]
      rfl
    rw [heq, hnone] at hdate
    cases hdate

/-- C10 witness: on the sample raw tables the merger call leaves the
transaction table at reference 0 with the parsed date column and the
renamed year column, different from the original. -/
theorem c10_dataframe_merger_mutates_prices_witness :
    ((dataframe_merger sampleTwoHeap 0 1).2).get 0
        = (samplePrices.setCol "date" [Value.dt "2020-01-15"]).map
            (fun p => if p.1 == "building_year" then ("yr_built", p.2) else p) ∧
    ((dataframe_merger sampleTwoHeap 0 1).2).get 0 ≠ samplePrices := by
  have hc := c10_dataframe_merger_mutates_prices sampleTwoHeap 0 1
    [Value.str "2020-01-15"] [Value.num 1990] (by decide) rfl rfl
    (by decide) (by decide)
  exact ⟨hc.1, by rw [hc.1]; exact hc.2.2.2.2⟩

/-- C1 (code slip observed at the failing input): invoking the pipeline
in inference mode without targets (`targets_included=False`,
`fit_encoder=False`) but with `target_file_name=None` — documented as
valid — raises `TypeError` at the unconditional target-path construction
(source line 335), so the engineered feature file is NOT written and the
feature store is untouched; the identical invocation with a target file
name succeeds and writes only the feature file (no target file). -/
theorem c1_none_target_filename_typeerror :
    (feature_engineering_pipeline sampleFill sampleHeap 0 sampleStore "store"
        "X.parquet" "enc.pkl" none false false).1
      = .error (.typeError
          "argument should be a str or an os.PathLike object, not NoneType") ∧
    (feature_engineering_pipeline sampleFill sampleHeap 0 sampleStore "store"
        "X.parquet" "enc.pkl" none false false).2.2 = sampleStore ∧
    (feature_engineering_pipeline sampleFill sampleHeap 0 sampleStore "store"
        "X.parquet" "enc.pkl" (some "y.csv") false false).1 = .ok () ∧
    ((feature_engineering_pipeline sampleFill sampleHeap 0 sampleStore "store"
        "X.parquet" "enc.pkl" (some "y.csv") false false).2.2.readFile
        "store/X.parquet").isSome = true ∧
    (feature_engineering_pipeline sampleFill sampleHeap 0 sampleStore "store"
        "X.parquet" "enc.pkl" (some "y.csv") false false).2.2.readFile "store/y.csv"
      = none := by
  refine ⟨rfl, rfl, rfl, rfl, rfl⟩
